import Mathlib

/-!
Verification of the `MultipleValueTextInput` React component
(src/components/MultipleValueTextInput.js).

The component's state is `{ values, value }`: the committed value collection
and the draft text of the input field.  The event handlers are embedded as
pure functions from state to state; callback invocations (`onItemAdded`,
`onItemDeleted`) are reified as a list of `CallbackCall` events returned
alongside the new state.
-/

/-- The component's internal state: `values` is the committed value
collection, `value` is the draft text currently in the input field. -/
structure ComponentState where
  values : List String
  value : String
deriving Repr, DecidableEq

/-- A reified invocation of one of the caller-supplied callbacks. -/
inductive CallbackCall where
  | itemAdded (value : String) (collection : List String)
  | itemDeleted (value : String) (collection : List String)
deriving Repr, DecidableEq

/-- The constructor: `this.state = { values: props.values, value: '' }`. -/
def initialState (propsValues : List String) : ComponentState :=
  { values := propsValues, value := "" }

/-- `handleItemAdd(value, onItemAdded)`: if the candidate is already in the
collection (`includes`, exact string equality) or is falsy (for a string,
the empty string), only the draft is cleared and no callback fires;
otherwise the candidate is appended (`concat`), the draft is cleared, and
`onItemAdded(value, newValues)` is invoked. -/
def handleItemAdd (s : ComponentState) (v : String) :
    ComponentState × List CallbackCall :=
  if v ∈ s.values ∨ v = "" then
    ({ s with value := "" }, [])
  else
    let newValues := s.values ++ [v]
    ({ values := newValues, value := "" }, [CallbackCall.itemAdded v newValues])

/-- `handleItemRemove(value)`: filters out every element `!==` the value and
invokes `onItemDeleted(value, newValues)` unconditionally (the source does
not guard the absent case). -/
def handleItemRemove (s : ComponentState) (v : String) :
    ComponentState × List CallbackCall :=
  let newValues := s.values.filter (· != v)
  ({ s with values := newValues }, [CallbackCall.itemDeleted v newValues])

/-- `handleValueChange(e)`: replaces the draft text with the input's text. -/
def handleValueChange (s : ComponentState) (text : String) : ComponentState :=
  { s with value := text }

/-- A DOM-level effect performed by `handleKeypress`, in order. -/
inductive KeyEffect where
  | preventDefault
  | commitAttempt (v : String)
deriving Repr, DecidableEq

/-- `charCodes` default: `[13, 44]` (Enter, Comma). -/
def defaultCharCodes : List Nat := [13, 44]

/-- `handleKeypress(e)`: when `charCodes.includes(e.charCode)`, calls
`e.preventDefault()` and then `handleItemAdd(e.target.value, onItemAdded)`;
otherwise does nothing.  The returned `KeyEffect` list records the DOM
actions in the order the source performs them. -/
def handleKeypress (charCodes : List Nat) (s : ComponentState)
    (charCode : Nat) (targetValue : String) :
    ComponentState × List KeyEffect × List CallbackCall :=
  if charCode ∈ charCodes then
    let r := handleItemAdd s targetValue
    (r.1, [KeyEffect.preventDefault, KeyEffect.commitAttempt targetValue], r.2)
  else
    (s, [], [])

/-- Modelled from the spec: the component file under src lacks a blur
handler (`shouldAddOnBlur` appears only in the repository's tests).  Per the
spec, when `shouldAddOnBlur` is true the field losing focus attempts a
commit of the current Draft Text; when false, blur attempts no commit. -/
def handleBlur (shouldAddOnBlur : Bool) (s : ComponentState) :
    ComponentState × List CallbackCall :=
  if shouldAddOnBlur then handleItemAdd s s.value else (s, [])

/-- `render`'s displayed item list:
`this.state.values && this.state.values.length ? this.state.values : this.props.values`
(an array is truthy in JS, so the condition is `length ≠ 0`). -/
def renderValues (propsValues : List String) (s : ComponentState) :
    List String :=
  if s.values.length ≠ 0 then s.values else propsValues

/-- A state-mutating user operation on the widget. -/
inductive Op where
  | add (v : String)
  | remove (v : String)
deriving Repr, DecidableEq

/-- Apply one operation, discarding callback events. -/
def applyOp (s : ComponentState) : Op → ComponentState
  | Op.add v => (handleItemAdd s v).1
  | Op.remove v => (handleItemRemove s v).1

/-- Run a sequence of operations from a starting state. -/
def runOps (s : ComponentState) (ops : List Op) : ComponentState :=
  ops.foldl applyOp s

/-- Commit a sequence of candidates in order, accumulating callback events. -/
def commitAll (s : ComponentState) : List String → ComponentState × List CallbackCall
  | [] => (s, [])
  | c :: rest =>
    let r1 := handleItemAdd s c
    let r2 := commitAll r1.1 rest
    (r2.1, r1.2 ++ r2.2)

/-- The `onItemAdded` events expected when committing a list of fresh
candidates on top of prefix `p`: one event per candidate, carrying the
running snapshot. -/
def expectedAddCalls (p : List String) : List String → List CallbackCall
  | [] => []
  | c :: rest => CallbackCall.itemAdded c (p ++ [c]) :: expectedAddCalls (p ++ [c]) rest

/-- Remove a list of values in order, discarding callback events. -/
def removeAllState (s : ComponentState) (vs : List String) : ComponentState :=
  vs.foldl (fun st v => (handleItemRemove st v).1) s

/-- Helper: the accepting branch of `handleItemAdd` in equational form. -/
theorem add_commit_eq (s : ComponentState) (v : String)
    (hne : v ≠ "") (hnm : v ∉ s.values) :
    handleItemAdd s v =
      ({ values := s.values ++ [v], value := "" },
       [CallbackCall.itemAdded v (s.values ++ [v])]) := by
  unfold handleItemAdd
  rw [if_neg (not_or.mpr ⟨hnm, hne⟩)]

/-- Helper: the rejecting branch of `handleItemAdd` in equational form. -/
theorem add_reject_eq (s : ComponentState) (v : String)
    (h : v ∈ s.values ∨ v = "") :
    handleItemAdd s v = ({ s with value := "" }, []) := by
  unfold handleItemAdd
  rw [if_pos h]

/-- Helper: committing a list of fresh, distinct, non-empty candidates on
top of collection `p` appends them in order and emits one `itemAdded` event
per candidate with the running snapshot. -/
theorem commitAll_fresh (cs : List String) : ∀ (p : List String),
    cs.Nodup → (∀ c ∈ cs, c ≠ "") → (∀ c ∈ cs, c ∉ p) →
    commitAll ⟨p, ""⟩ cs = (⟨p ++ cs, ""⟩, expectedAddCalls p cs) := by
  induction cs with
  | nil =>
    intro p _ _ _
    simp [commitAll, expectedAddCalls]
  | cons c rest ih =>
    intro p hnd hne hfresh
    have hc_ne : c ≠ "" := hne c (List.mem_cons_self c rest)
    have hc_nm : c ∉ p := hfresh c (List.mem_cons_self c rest)
    have hstep := add_commit_eq ⟨p, ""⟩ c hc_ne hc_nm
    have hc_rest : c ∉ rest := (List.nodup_cons.mp hnd).1
    have hrest := ih (p ++ [c]) (List.nodup_cons.mp hnd).2
      (fun x hx => hne x (List.mem_cons_of_mem c hx))
      (fun x hx => by
        intro hmem
        rcases List.mem_append.mp hmem with h1 | h2
        · exact hfresh x (List.mem_cons_of_mem c hx) h1
        · exact hc_rest (List.mem_singleton.mp h2 ▸ hx))
    simp only [commitAll, expectedAddCalls, hstep, hrest]
    simp [List.append_assoc]

/-- Helper: `handleItemAdd` preserves the no-duplicates invariant. -/
theorem add_preserves_nodup (s : ComponentState) (v : String)
    (h : s.values.Nodup) : (handleItemAdd s v).1.values.Nodup := by
  unfold handleItemAdd
  by_cases hc : v ∈ s.values ∨ v = ""
  · rw [if_pos hc]; exact h
  · rw [if_neg hc]
    push_neg at hc
    exact h.append (List.nodup_singleton v) (List.disjoint_singleton.mpr hc.1)

/-- Helper: `handleItemRemove` preserves the no-duplicates invariant. -/
theorem remove_preserves_nodup (s : ComponentState) (v : String)
    (h : s.values.Nodup) : (handleItemRemove s v).1.values.Nodup :=
  h.filter _

/-- Helper: running any operation sequence preserves the invariant. -/
theorem runOps_nodup (ops : List Op) : ∀ (s : ComponentState),
    s.values.Nodup → (runOps s ops).values.Nodup := by
  induction ops with
  | nil => intro s h; exact h
  | cons op rest ih =>
    intro s h
    have hstep : (applyOp s op).values.Nodup := by
      cases op with
      | add v => exact add_preserves_nodup s v h
      | remove v => exact remove_preserves_nodup s v h
    exact ih (applyOp s op) hstep

/-- Claim C7: after every invocation of `handleItemAdd`, whether the commit
is accepted or rejected, the draft text equals `""`. -/
theorem handleItemAdd_clears_draft (s : ComponentState) (v : String) :
    (handleItemAdd s v).1.value = "" := by
  unfold handleItemAdd
  split <;> rfl

/-- Claim C2: an empty candidate, or one already present in the collection,
is rejected: the collection is unchanged, the draft is cleared, and no
callback is invoked (the function is total, so no exception is raised). -/
theorem handleItemAdd_rejects (s : ComponentState) (v : String)
    (h : v = "" ∨ v ∈ s.values) :
    handleItemAdd s v = ({ s with value := "" }, []) := by
  unfold handleItemAdd
  rw [if_pos h.symm]

/-- Witness for C2: a duplicate candidate and an empty candidate are both
rejected on the concrete state `⟨["a"], "draft"⟩`. -/
theorem handleItemAdd_rejects_witness :
    handleItemAdd ⟨["a"], "draft"⟩ "a" = (⟨["a"], ""⟩, []) ∧
    handleItemAdd ⟨["a"], "draft"⟩ "" = (⟨["a"], ""⟩, []) :=
  ⟨handleItemAdd_rejects ⟨["a"], "draft"⟩ "a" (Or.inr (by decide)),
   handleItemAdd_rejects ⟨["a"], "draft"⟩ "" (Or.inl rfl)⟩

/-- Claim C1: a non-empty candidate not already present is appended at the
end of the collection, the draft is cleared, and `onItemAdded` is invoked
exactly once with the candidate and the post-append snapshot; consequently,
committing a sequence of distinct non-empty strings from an empty collection
yields that sequence in order, with one `itemAdded` event per element
carrying the running snapshot. -/
theorem handleItemAdd_commit_spec :
    (∀ (s : ComponentState) (v : String), v ≠ "" → v ∉ s.values →
      handleItemAdd s v =
        ({ values := s.values ++ [v], value := "" },
         [CallbackCall.itemAdded v (s.values ++ [v])])) ∧
    (∀ cs : List String, cs.Nodup → (∀ c ∈ cs, c ≠ "") →
      commitAll (initialState []) cs =
        ({ values := cs, value := "" }, expectedAddCalls [] cs)) := by
  refine ⟨add_commit_eq, fun cs hnd hne => ?_⟩
  have h := commitAll_fresh cs [] hnd hne (by simp)
  simpa [initialState] using h

/-- Witness for C1 at concrete inputs. -/
theorem handleItemAdd_commit_spec_witness :
    handleItemAdd ⟨["a"], "x"⟩ "b" =
      (⟨["a", "b"], ""⟩, [CallbackCall.itemAdded "b" ["a", "b"]]) ∧
    commitAll (initialState []) ["a", "b"] =
      (⟨["a", "b"], ""⟩, expectedAddCalls [] ["a", "b"]) :=
  ⟨handleItemAdd_commit_spec.1 ⟨["a"], "x"⟩ "b" (by decide) (by decide),
   handleItemAdd_commit_spec.2 ["a", "b"] (by decide) (by decide)⟩

/-- Claim C3: the no-duplicates invariant is preserved by `handleItemAdd`
and `handleItemRemove` individually, and hence by every sequence of
operations from a duplicate-free seed: every reachable collection state is
duplicate-free. -/
theorem nodup_invariant :
    (∀ (s : ComponentState) (v : String), s.values.Nodup →
       (handleItemAdd s v).1.values.Nodup) ∧
    (∀ (s : ComponentState) (v : String), s.values.Nodup →
       (handleItemRemove s v).1.values.Nodup) ∧
    (∀ (seed : List String) (ops : List Op), seed.Nodup →
       (runOps (initialState seed) ops).values.Nodup) :=
  ⟨add_preserves_nodup, remove_preserves_nodup,
   fun seed ops h => runOps_nodup ops (initialState seed) h⟩

/-- Witness for C3 at concrete inputs. -/
theorem nodup_invariant_witness :
    (handleItemAdd ⟨["a"], ""⟩ "b").1.values.Nodup ∧
    (handleItemRemove ⟨["a", "b"], ""⟩ "a").1.values.Nodup ∧
    (runOps (initialState ["a"]) [Op.add "b", Op.remove "a"]).values.Nodup :=
  ⟨nodup_invariant.1 ⟨["a"], ""⟩ "b" (by decide),
   nodup_invariant.2.1 ⟨["a", "b"], ""⟩ "a" (by decide),
   nodup_invariant.2.2 ["a"] [Op.add "b", Op.remove "a"] (by decide)⟩

/-- Claim C4: removing a value present in a duplicate-free collection
removes exactly that one occurrence (`erase`), shrinks the length by one,
keeps the remaining elements in their relative order (a sublist of the
original), and emits exactly one `itemDeleted` event with the removed value
and the post-removal snapshot. -/
theorem handleItemRemove_present (s : ComponentState) (v : String)
    (hnd : s.values.Nodup) (hm : v ∈ s.values) :
    (handleItemRemove s v).1.values = s.values.erase v ∧
    (handleItemRemove s v).1.values.length + 1 = s.values.length ∧
    (handleItemRemove s v).1.values.Sublist s.values ∧
    (handleItemRemove s v).2 =
      [CallbackCall.itemDeleted v (s.values.erase v)] := by
  have hfe : s.values.erase v = s.values.filter (· != v) :=
    hnd.erase_eq_filter v
  have h1 : (handleItemRemove s v).1.values = s.values.erase v := by
    rw [hfe]; rfl
  refine ⟨h1, ?_, ?_, ?_⟩
  · rw [h1, List.length_erase_of_mem hm]
    have := List.length_pos_of_mem hm
    omega
  · rw [h1, hfe]
    exact List.filter_sublist _
  · rw [hfe]
    rfl

/-- Witness for C4 at concrete inputs. -/
theorem handleItemRemove_present_witness :
    (handleItemRemove ⟨["a", "b"], ""⟩ "a").1.values =
      (["a", "b"] : List String).erase "a" ∧
    (handleItemRemove ⟨["a", "b"], ""⟩ "a").1.values.length + 1 =
      (["a", "b"] : List String).length ∧
    (handleItemRemove ⟨["a", "b"], ""⟩ "a").1.values.Sublist ["a", "b"] ∧
    (handleItemRemove ⟨["a", "b"], ""⟩ "a").2 =
      [CallbackCall.itemDeleted "a" ((["a", "b"] : List String).erase "a")] :=
  handleItemRemove_present ⟨["a", "b"], ""⟩ "a" (by decide) (by decide)

/-- Claim C5 (code behavior at the failing input): removing a value absent
from the collection leaves the collection unchanged, but the source still
invokes `onItemDeleted` with the absent value and the unchanged collection —
it is not the silent no-op the claim describes. -/
theorem handleItemRemove_absent_calls_callback :
    ("x" ∉ (["a"] : List String)) ∧
    handleItemRemove ⟨["a"], "d"⟩ "x" =
      (⟨["a"], "d"⟩, [CallbackCall.itemDeleted "x" ["a"]]) := by
  constructor
  · decide
  · decide

/-- Claim C6: committing the same fresh non-empty candidate twice in
succession adds it exactly once and emits exactly one `itemAdded` event;
the second invocation is rejected and emits none. -/
theorem handleItemAdd_idempotent (s : ComponentState) (v : String)
    (hne : v ≠ "") (hnm : v ∉ s.values) :
    (handleItemAdd (handleItemAdd s v).1 v).1.values = s.values ++ [v] ∧
    (handleItemAdd s v).2 = [CallbackCall.itemAdded v (s.values ++ [v])] ∧
    (handleItemAdd (handleItemAdd s v).1 v).2 = [] := by
  have h1 := add_commit_eq s v hne hnm
  have hmem : v ∈ (handleItemAdd s v).1.values := by
    rw [h1]; simp
  have h2 := add_reject_eq (handleItemAdd s v).1 v (Or.inl hmem)
  refine ⟨?_, ?_, ?_⟩
  · rw [h2, h1]
  · rw [h1]
  · rw [h2]

/-- Witness for C6 at concrete inputs. -/
theorem handleItemAdd_idempotent_witness :
    (handleItemAdd (handleItemAdd ⟨["x"], ""⟩ "a").1 "a").1.values =
      ["x"] ++ ["a"] ∧
    (handleItemAdd ⟨["x"], ""⟩ "a").2 =
      [CallbackCall.itemAdded "a" (["x"] ++ ["a"])] ∧
    (handleItemAdd (handleItemAdd ⟨["x"], ""⟩ "a").1 "a").2 = [] :=
  handleItemAdd_idempotent ⟨["x"], ""⟩ "a" (by decide) (by decide)

/-- Claim C8: a commit of the event target's text is attempted iff the
event's character code is in the configured list; when it is, the default
action is suppressed before the commit is attempted (the effect order is
`preventDefault` then `commitAttempt`), and the resulting state and events
are exactly those of `handleItemAdd`; otherwise nothing happens.  The
default code list is `[13, 44]` (Enter, Comma). -/
theorem handleKeypress_spec :
    (∀ (charCodes : List Nat) (s : ComponentState) (code : Nat) (tv : String),
       code ∈ charCodes →
         handleKeypress charCodes s code tv =
           ((handleItemAdd s tv).1,
            [KeyEffect.preventDefault, KeyEffect.commitAttempt tv],
            (handleItemAdd s tv).2)) ∧
    (∀ (charCodes : List Nat) (s : ComponentState) (code : Nat) (tv : String),
       code ∉ charCodes →
         handleKeypress charCodes s code tv = (s, [], [])) ∧
    defaultCharCodes = [13, 44] := by
  refine ⟨?_, ?_, rfl⟩
  · intro cc s code tv h
    unfold handleKeypress
    rw [if_pos h]
  · intro cc s code tv h
    unfold handleKeypress
    rw [if_neg h]

/-- Witness for C8: Enter (13) triggers on the default list; key code 97
does not. -/
theorem handleKeypress_spec_witness :
    handleKeypress defaultCharCodes ⟨[], "abc"⟩ 13 "abc" =
      ((handleItemAdd ⟨[], "abc"⟩ "abc").1,
       [KeyEffect.preventDefault, KeyEffect.commitAttempt "abc"],
       (handleItemAdd ⟨[], "abc"⟩ "abc").2) ∧
    handleKeypress defaultCharCodes ⟨[], "abc"⟩ 97 "abc" =
      (⟨[], "abc"⟩, [], []) :=
  ⟨handleKeypress_spec.1 defaultCharCodes ⟨[], "abc"⟩ 13 "abc" (by decide),
   handleKeypress_spec.2.1 defaultCharCodes ⟨[], "abc"⟩ 97 "abc" (by decide)⟩

/-- Claim C9 (blur handler modelled from the spec): with `shouldAddOnBlur`
true, typing "test" from an empty seed and blurring yields collection
`["test"]` with exactly one `itemAdded("test", ["test"])` event; with
`shouldAddOnBlur` false, blur changes nothing and emits nothing. -/
theorem handleBlur_spec :
    handleBlur true (handleValueChange (initialState []) "test") =
      (⟨["test"], ""⟩, [CallbackCall.itemAdded "test" ["test"]]) ∧
    (∀ s : ComponentState, handleBlur false s = (s, [])) := by
  constructor
  · decide
  · intro s
    rfl

/-- Helper: removing, in order, a list of values that covers every element
of the current collection empties the collection. -/
theorem removeAll_covers (l : List String) : ∀ (s : ComponentState),
    (∀ x ∈ s.values, x ∈ l) → (removeAllState s l).values = [] := by
  induction l with
  | nil =>
    intro s h
    show s.values = []
    exact List.eq_nil_iff_forall_not_mem.mpr
      (fun x hx => absurd (h x hx) (List.not_mem_nil x))
  | cons v rest ih =>
    intro s h
    show (removeAllState (handleItemRemove s v).1 rest).values = []
    apply ih
    intro x hx
    have hx2 : x ∈ s.values.filter (· != v) := hx
    have hx3 := List.mem_filter.mp hx2
    have hne : x ≠ v := by simpa using hx3.2
    rcases List.mem_cons.mp (h x hx3.1) with h1 | h2
    · exact absurd h1 hne
    · exact h2

/-- Claim C10: the rendered item list falls back to the caller-supplied
seed whenever the internal collection is empty; in particular, after
removing every committed value from a widget constructed with a non-empty
seed, the displayed rows are the original seed list, not the empty list. -/
theorem renderValues_fallback :
    (∀ (propsValues : List String) (s : ComponentState), s.values = [] →
       renderValues propsValues s = propsValues) ∧
    (∀ seed : List String, seed ≠ [] →
       (removeAllState (initialState seed) seed).values = [] ∧
       renderValues seed (removeAllState (initialState seed) seed) = seed) := by
  constructor
  · intro p s h
    unfold renderValues
    rw [h]
    simp
  · intro seed hne
    have hempty : (removeAllState (initialState seed) seed).values = [] :=
      removeAll_covers seed (initialState seed) (fun _ hx => hx)
    refine ⟨hempty, ?_⟩
    unfold renderValues
    rw [hempty]
    simp

/-- Witness for C10: with seed `["a"]`, removing `"a"` empties the internal
collection yet the rendered list is the seed `["a"]`. -/
theorem renderValues_fallback_witness :
    renderValues ["a"] ⟨[], "d"⟩ = ["a"] ∧
    ((removeAllState (initialState ["a"]) ["a"]).values = [] ∧
     renderValues ["a"] (removeAllState (initialState ["a"]) ["a"]) = ["a"]) :=
  ⟨renderValues_fallback.1 ["a"] ⟨[], "d"⟩ rfl,
   renderValues_fallback.2 ["a"] (by decide)⟩
